import Mathlib

/-!
Verification of the bromatoes sale tracker against its specification.

The Go sources under internal/sales (service, reader, writer) are shallowly
embedded below: machine integers become Nat (no arithmetic in the embedded
code can overflow a uint64 where it matters, and every theorem is also
exercised on concrete inputs), fallible operations return Except or Option,
the Couchbase-backed store becomes an in-memory list of records together with
an interpreter for exactly the N1QL statements the reader and writer build,
and remote calls (Solana RPC, the Twitter API) become explicit inputs that
supply each call result.
-/

namespace Bromato

/-! ### Data model: internal/sales/sales.go -/

/-- Embeds sales.PublishDetails: the details of the posting to twitter.
Time values are modelled as their RFC3339 strings, which is how they are
stored and compared in the document store. -/
structure PublishDetails where
  id : String
  channel : String
  time : Option String
  success : Bool
deriving DecidableEq, Repr, Inhabited

/-- Embeds sales.NFT: the NFT metadata attributes. -/
structure NFTMeta where
  name : String
  symbol : String
  metadataURI : String
deriving DecidableEq, Repr, Inhabited

/-- Embeds sales.Record: the sales record of the NFT. Pointer-typed fields
of the Go struct become Option, the uint64 price becomes Nat (no arithmetic
performed on it can underflow or overflow, see getPrice), and time fields
are their RFC3339 strings. -/
structure Record where
  id : String
  buyer : String
  collection : String
  createdAt : Option String
  marketplace : String
  mintPubkey : String
  price : Nat
  publishDetails : Option PublishDetails
  seller : String
  saleTime : Option String
  nft : NFTMeta
  twitterMediaID : String
deriving DecidableEq, Repr, Inhabited

/-! ### Price helpers: service.go lines 987-1038 -/

/-- Embeds getPrice (service.go): the absolute difference of the pre and
post balances. In Go both branches subtract the smaller uint64 from the
larger one, so the subtraction never wraps and the Nat model is exact. -/
def getPrice (pre post : Nat) : Nat :=
  if pre < post then post - pre else pre - post

/-- Embeds reverseArr (service.go): builds r with r[len-1-i] = arr[i],
which is list reversal. -/
def reverseArr (arr : List String) : List String :=
  arr.reverse

/-- Embeds the Go constant lamportTensInSol = 9. -/
def lamportTensInSol : Nat := 9

/-- Embeds the dot-splicing loop at the end of toSolPriceStr: for i in
range arr, once i reaches lamportTensInSol-1 = 8 the Go code sets
arr = append(append(arr[:8], "."), arr[9:]...), which replaces the element
at index 8 by "." (the element itself is dropped, not shifted). Index 8 is
reached exactly when the array has at least 9 elements. -/
def spliceDot (arr : List String) : List String :=
  if 9 ≤ arr.length then arr.take 8 ++ ["."] ++ arr.drop 9 else arr

/-- Embeds toSolPriceStr (service.go): formats a lamport amount as a SOL
decimal string. arr is the list of decimal digit characters of the price,
least significant first, each as a one-character string, mirroring the Go
index loop arr[len-1-i] = str[i]. -/
def toSolPriceStr (price : Nat) : String :=
  if price < 40000000 then "" else
  let str : List Char := Nat.toDigits 10 price
  let arr : List String := str.reverse.map (fun c => String.mk [c])
  if arr.length ≤ lamportTensInSol then
    let priceStr :=
      String.join (reverseArr (arr ++
        [String.mk ('.' :: List.replicate (lamportTensInSol - arr.length) '0')]))
    if priceStr.toList.head? = some '.' then "0" ++ priceStr
    else String.join (reverseArr (spliceDot arr))
  else String.join (reverseArr (spliceDot arr))

/-! ### Record store reader: internal/sales/reader/reader.go

The reader issues N1QL statements against Couchbase. The store is modelled
as an in-memory list of records and the query semantics below interpret
exactly the statements the reader builds: WHERE clauses with the operators
IS NULL and >= (on string-valued fields, compared by the code-point order
that N1QL uses for strings), ORDER BY a field with ASC or DESC, and LIMIT.
A field that is NULL or MISSING sorts first under ASC, as in N1QL. -/

/-- Embeds the sales error sentinel values used across the services. -/
inductive SErr where
  | notFound
deriving DecidableEq, Repr

/-- Code-point lexicographic comparison of character lists, the collation
N1QL applies to strings. On the RFC3339 UTC timestamps this code stores it
coincides with chronological order. -/
def charListLe : List Char → List Char → Bool
  | [], _ => true
  | _ :: _, [] => false
  | a :: as, b :: bs =>
    if a.toNat < b.toNat then true
    else if b.toNat < a.toNat then false
    else charListLe as bs

/-- Code-point lexicographic comparison of strings. -/
def strLe (a b : String) : Bool :=
  charListLe a.toList b.toList

/-- Embeds reader.Where: one WHERE clause of a list query. The Go Value is
an untyped interface; every call site passes a string, so the value is
modelled as an optional string. -/
structure Where where
  field : String
  operator : String
  value : Option String
deriving DecidableEq, Repr

/-- Embeds reader.Condition. The Go Limit is an int that only takes the
values 0 (absent) and 1 in this code base, so Nat is exact. -/
structure Condition where
  wheres : List Where
  orderBy : String
  sortDirection : String
  limit : Nat
deriving DecidableEq, Repr

/-- The string value a stored record document exposes for a field name, for
comparison operators and ORDER BY keys. Only the fields the code queries by
are given values; none models NULL or MISSING. -/
def fieldStrValue (r : Record) (f : String) : Option String :=
  if f = "id" then some r.id
  else if f = "saleTime" then r.saleTime
  else none

/-- Whether a field of a record document is NULL or MISSING, for the
IS NULL operator. -/
def fieldIsNull (r : Record) (f : String) : Bool :=
  if f = "publishDetails" then r.publishDetails.isNone
  else if f = "saleTime" then r.saleTime.isNone
  else if f = "id" then false
  else true

/-- N1QL truth value of one WHERE clause on one record. A comparison with a
NULL or MISSING operand is not TRUE and the record is filtered out. -/
def evalWhere (r : Record) (w : Where) : Bool :=
  if w.operator = "IS NULL" then fieldIsNull r w.field
  else if w.operator = "IS NOT NULL" then !(fieldIsNull r w.field)
  else if w.operator = ">=" then
    match fieldStrValue r w.field, w.value with
    | some v, some c => strLe c v
    | _, _ => false
  else false

/-- N1QL ASC ordering on field values: NULL and MISSING sort before any
string, strings compare in code-point order. -/
def keyLe (a b : Option String) : Bool :=
  match a, b with
  | none, _ => true
  | some _, none => false
  | some x, some y => strLe x y

/-- The ORDER BY clause: reader.List appends it only when OrderBy is
nonempty, followed by the sort direction. -/
def applyOrder (cond : Condition) (rs : List Record) : List Record :=
  if cond.orderBy = "" then rs
  else
    let sorted := rs.mergeSort
      (fun r₁ r₂ => keyLe (fieldStrValue r₁ cond.orderBy) (fieldStrValue r₂ cond.orderBy))
    if cond.sortDirection = "DESC" then sorted.reverse else sorted

/-- The LIMIT clause: reader.List appends it only when Limit > 0. -/
def applyLimit (cond : Condition) (rs : List Record) : List Record :=
  if 0 < cond.limit then rs.take cond.limit else rs

/-- The rows produced by the SELECT statement reader.List builds: filter by
the conjunction of the WHERE clauses, then order, then limit. -/
def listQuery (db : List Record) (cond : Condition) : List Record :=
  applyLimit cond (applyOrder cond (db.filter (fun r => cond.wheres.all (evalWhere r))))

/-- Embeds reader.List (reader.go lines 110-177): runs the query and, when
zero rows come back, reports sales.ErrNotFound instead of an empty slice. -/
def listRecords (db : List Record) (cond : Condition) : Except SErr (List Record) :=
  let records := listQuery db cond
  if records.isEmpty then .error .notFound else .ok records

/-- Embeds reader.Get (reader.go lines 84-108): key-value fetch of the
record whose document key (the record id) matches; a missing document is
sales.ErrNotFound. -/
def getRecord (db : List Record) (id : String) : Except SErr Record :=
  match db.find? (fun r => r.id = id) with
  | some r => .ok r
  | none => .error .notFound

/-! ### Record store writer: internal/sales/writer/writer.go -/

/-- The value carried by one field update. The Go writer.Update.Value is an
untyped interface; the two call sites pass a string (twitterMediaId) and a
PublishDetails pointer (publishDetails). -/
inductive FieldVal where
  | str (s : String)
  | pub (p : PublishDetails)
deriving DecidableEq, Repr

/-- Embeds writer.Update: one field assignment of the UPDATE statement. -/
structure Update where
  field : String
  value : FieldVal
deriving DecidableEq, Repr

/-- The effect of one SET clause on one record document. Only the fields
the code updates are interpreted; a type-mismatched value leaves the field
unchanged (no call site produces one). -/
def applyUpdate (r : Record) (u : Update) : Record :=
  if u.field = "twitterMediaId" then
    match u.value with
    | .str s => { r with twitterMediaID := s }
    | _ => r
  else if u.field = "publishDetails" then
    match u.value with
    | .pub p => { r with publishDetails := some p }
    | _ => r
  else r

/-- The rows touched by the statement UPDATE ... WHERE id = $q_id LIMIT 1
that writer.UpdateFields builds: at most one record with a matching id is
rewritten with every SET clause applied; all other records are untouched. -/
def updateMatch (id : String) (updates : List Update) : List Record → List Record
  | [] => []
  | r :: rest =>
    if r.id = id then (updates.foldl applyUpdate r) :: rest
    else r :: updateMatch id updates rest

/-- Embeds writer.UpdateFields (writer.go lines 114-161): an empty update
list returns immediately; otherwise the LIMIT 1 UPDATE statement runs. The
statement succeeds regardless of how many records matched — the code
discards the query result and never inspects a mutation count, and an
UPDATE that matches zero rows is not an error in N1QL. -/
def updateFields (db : List Record) (id : String) (updates : List Update) :
    Except SErr (List Record) :=
  if updates.isEmpty then .ok db
  else .ok (updateMatch id updates db)

/-! ### Publication selection: service.go getOldestNonPublished and
getOldestSaleSignature -/

/-- The fixed publication cutoff timestamp from getOldestNonPublished. -/
def publishCutoff : String := "2021-12-01T00:00:00Z"

/-- The query condition built by getOldestNonPublished (service.go lines
858-888): null publishDetails, saleTime at or after the cutoff, ordered by
saleTime ascending, limit one. -/
def oldestNonPublishedCond : Condition :=
  { wheres :=
      [ { field := "publishDetails", operator := "IS NULL", value := none },
        { field := "saleTime", operator := ">=", value := some publishCutoff } ],
    orderBy := "saleTime",
    sortDirection := "ASC",
    limit := 1 }

/-- Embeds getOldestNonPublished: runs the selection query and takes the
first row. The Go code indexes oldestRes[0] directly; headI models that
access, and the listRecords contract (proved below) shows the row list is
never empty on the nil-error path. -/
def getOldestNonPublished (db : List Record) : Except SErr Record :=
  match listRecords db oldestNonPublishedCond with
  | .error e => .error e
  | .ok rs => .ok rs.headI

/-- The query condition built by getOldestSaleSignature (service.go lines
502-526): no filter, ordered by saleTime ascending, limit one. -/
def oldestSaleCond : Condition :=
  { wheres := [], orderBy := "saleTime", sortDirection := "ASC", limit := 1 }

/-- Embeds getOldestSaleSignature: the id of the oldest sale, used as the
until cursor; none models the zero-valued signature returned when the store
is empty (the ErrNotFound arm leaves until at its zero value). The Go code
indexes res[0] directly; headI models that access. -/
def getOldestSaleSignature (db : List Record) : Option String :=
  match listRecords db oldestSaleCond with
  | .ok rs => some rs.headI.id
  | .error .notFound => none

/-! ### Ingestion: service.go SaveNewSales and helpers

SaveNewSales pages through GetSignaturesForAddress and, for each signature
of each page in feed order, checks the store, fetches the transaction,
classifies it, and creates a record. The RPC responses are inputs here: a
run is a list of fetched pages, each page a list of signature entries that
already carry the transaction and token metadata their RPC lookups would
return. RPC failures abort a run with an error and create nothing; only the
non-failing paths are modelled. -/

/-- The transaction data SaveNewSales reads from GetTransaction: the error
marker of tx.Meta, the first pre and post balances, the account keys, and
the first post token balance mint. A transaction whose Meta is nil is
modelled by leaving the whole TxMeta out (see SigInfo.tx). -/
structure TxMeta where
  err : Bool
  preBalance : Nat
  postBalance : Nat
  keys : List String
  mint : String
deriving DecidableEq, Repr

/-- One entry of a fetched signatures page, together with the data its
GetTransaction and metadata lookups return: the signature, the block time
as its RFC3339 string, the transaction (none when tx.Meta is nil), and the
token metadata attributes after the metaplex padding strip. -/
structure SigInfo where
  signature : String
  blockTime : String
  tx : Option TxMeta
  metaName : String
  metaSymbol : String
  metaURI : String
deriving DecidableEq, Repr

/-- The marketplace program address map from isMarketplaceSale. -/
def marketplaceOf (key : String) : Option String :=
  if key = "MEisE1HzehtrDpAAT8PnLHjpSSkRYakotTuJRPjTpo8" then some "Magic Eden"
  else if key = "HZaWndaNWHFDd9Dhk5pqUUtsmoBCqzb1MLu3NAh1VX6B" then some "Alpha Art"
  else if key = "617jbWo616ggkDxvW1Le8pV38XLbVSyWY8ae6QUmGBAU" then some "Solsea"
  else if key = "CJsLwbP1iu5DuUikHEJnLfANgKy6stB2uFgvBBHoyxwz" then some "Solanart"
  else if key = "A7p8451ktDCHq5yYaHczeLMYsjRsAkzc3hCXcSrwYHU7" then some "Digital Eyes"
  else if key = "AmK5g2XcyptVLCFESBCJqoSfwV3znGoVYQnqEnaAZKWn" then some "Exchange Art"
  else none

/-- Embeds isMarketplaceSale (service.go lines 938-956): the first account
key that is a known marketplace program decides the marketplace. -/
def isMarketplaceSale : List String → Option String
  | [] => none
  | k :: ks =>
    match marketplaceOf k with
    | some m => some m
    | none => isMarketplaceSale ks

/-- Embeds createSalesRecord (service.go lines 303-343) up to its decision:
the record built from the signature, transaction, and metadata, or none for
the low-price Solsea noise filter (price below 0.05 SOL on Solsea is
treated as a listing, not a sale). The CreatedAt wall-clock stamp written
by Service.Create is not modelled. -/
def createSalesRecord (sig : SigInfo) (tx : TxMeta) (marketplace : String) :
    Option Record :=
  let price := getPrice tx.preBalance tx.postBalance
  if price < 50000000 ∧ marketplace = "Solsea" then none
  else some
    { id := sig.signature,
      buyer := "",
      collection := "bad-bromatoes",
      createdAt := none,
      marketplace := marketplace,
      mintPubkey := tx.mint,
      price := price,
      publishDetails := none,
      seller := "",
      saleTime := some sig.blockTime,
      nft := { name := sig.metaName, symbol := sig.metaSymbol, metadataURI := sig.metaURI },
      twitterMediaID := "" }

/-- The record, if any, that processing one signature entry creates. This
chains the skip conditions of the SaveNewSales loop body in source order:
tx.Meta nil, tx.Meta.Err set, no marketplace key, then createSalesRecord.
It does not depend on the store. -/
def saleRecordOf (sig : SigInfo) : Option Record :=
  match sig.tx with
  | none => none
  | some tx =>
    if tx.err then none
    else
      match isMarketplaceSale tx.keys with
      | none => none
      | some m => createSalesRecord sig tx m

/-- Embeds isCaughtUp (service.go lines 346-359): whether reader.Get finds
the signature in the store. -/
def isCaughtUp (db : List Record) (signature : String) : Bool :=
  match getRecord db signature with
  | .ok _ => true
  | .error .notFound => false

/-- The inner loop of SaveNewSales over one fetched page, threading the
store: the records created, in creation order, and whether the caught-up
break out of the labelled findNewSales loop fired. Created records enter
the store immediately (Service.Create writes through), so later caught-up
checks of the same run see them. -/
def processPage (db : List Record) : List SigInfo → List Record × Bool
  | [] => ([], false)
  | sig :: rest =>
    if isCaughtUp db sig.signature then ([], true)
    else
      match saleRecordOf sig with
      | none => processPage db rest
      | some rec =>
        let step := processPage (db ++ [rec]) rest
        (rec :: step.1, step.2)

/-- The outer findNewSales loop of SaveNewSales over the successive fetched
pages: an empty page ends the run, a caught-up break ends the run after the
records created earlier in that page, and otherwise the run continues on
the next page with the enlarged store. Returns the records created by the
whole run in creation order. -/
def processPages (db : List Record) : List (List SigInfo) → List Record
  | [] => []
  | page :: rest =>
    if page.isEmpty then []
    else
      let step := processPage db page
      if step.2 then step.1
      else step.1 ++ processPages (db ++ step.1) rest

/-- The signature entries the SaveNewSales inner loop examines for one
page, in the order it examines them. An entry counts as processed as soon
as the loop body starts on it (the caught-up entry itself is examined, then
the break fires before any further entry). -/
def processedEntries (db : List Record) : List SigInfo → List SigInfo
  | [] => []
  | sig :: rest =>
    sig ::
      (if isCaughtUp db sig.signature then []
       else
         match saleRecordOf sig with
         | none => processedEntries db rest
         | some rec => processedEntries (db ++ [rec]) rest)

/-! ### Publication: service.go PublishNewSales and processMetadataImage

The remote interactions of one publish attempt are inputs: each field of
PubEnv is the result the corresponding network call would produce. The
steps a run performs are recorded as a trace. -/

/-- The externally visible steps of one publish attempt. -/
inductive Step where
  | resolveMeta
  | download
  | upload
  | post
  | update
deriving DecidableEq, Repr

/-- The call results the network would supply during one publish attempt,
each keyed by the request the code sends: the image URI resolved from the
metadata document at a given metadata URI, the bytes downloaded from a
given image URI, the media id minted by the chunked upload of given bytes,
and the posted tweet id. An error value makes the corresponding call
fail. The image extension parsing of the upload request is not modelled
(no claim depends on it). -/
structure PubEnv where
  imageURI : String → Except String String
  image : String → Except String (List Nat)
  uploadedMediaID : List Nat → Except String String
  tweetID : Except String String

/-- Embeds processMetadataImage (service.go lines 361-395): resolve the
image URI from the metadata URI of the record, download the image, upload
it to the media endpoint, and return the minted media id, stopping at the
first failing call. The trace lists the calls started. The record argument
feeds only the metadata URI of the resolution request; in particular the
cached record.TwitterMediaID is never consulted. -/
def processMetadataImage (env : PubEnv) (record : Record) :
    Except String String × List Step :=
  match env.imageURI record.nft.metadataURI with
  | .error e => (.error e, [.resolveMeta])
  | .ok uri =>
    match env.image uri with
    | .error e => (.error e, [.resolveMeta, .download])
    | .ok img =>
      match env.uploadedMediaID img with
      | .error e => (.error e, [.resolveMeta, .download, .upload])
      | .ok mediaID => (.ok mediaID, [.resolveMeta, .download, .upload])

/-- The outcome of one publish attempt: the final result together with the
store contents after it, and the trace of steps performed. -/
structure PubOutcome where
  result : Except String Unit
  db : List Record
  steps : List Step
deriving Repr

/-- Embeds PublishNewSales (service.go lines 242-301): select the oldest
non-published record (ErrNotFound means nothing to publish and the run
succeeds doing nothing), always run processMetadataImage on it, optionally
stop before posting when skipPublish is set, post the tweet, and record the
media id and publish details through writer.UpdateFields. -/
def publishNewSales (db : List Record) (env : PubEnv) (skipPublish : Bool)
    (now : Option String) : PubOutcome :=
  match getOldestNonPublished db with
  | .error .notFound => { result := .ok (), db := db, steps := [] }
  | .ok oldest =>
    match processMetadataImage env oldest with
    | (.error e, steps) => { result := .error e, db := db, steps := steps }
    | (.ok mediaID, steps) =>
      if skipPublish then { result := .ok (), db := db, steps := steps }
      else
        match env.tweetID with
        | .error e => { result := .error e, db := db, steps := steps ++ [.post] }
        | .ok tweetID =>
          let details : PublishDetails :=
            { id := tweetID, channel := "twitter", time := now, success := true }
          let updates : List Update :=
            [ { field := "twitterMediaId", value := .str mediaID },
              { field := "publishDetails", value := .pub details } ]
          match updateFields db oldest.id updates with
          | .ok db' => { result := .ok (), db := db', steps := steps ++ [.post, .update] }
          | .error _ => { result := .error "update", db := db, steps := steps ++ [.post, .update] }

/-! ### Retry policy: service.go retryRPC -/

/-- Whether pat occurs as a contiguous run inside a character list. -/
def hasInfix (pat : List Char) : List Char → Bool
  | [] => pat.isEmpty
  | c :: rest => pat.isPrefixOf (c :: rest) || hasInfix pat rest

/-- Embeds the 429 test of retryRPC: strings.Contains(err.Error(), "429"). -/
def contains429 (msg : String) : Bool :=
  hasInfix "429".toList msg.toList

/-- The fixed sleep retryRPC performs between rate-limited attempts, in
seconds (time.Sleep(time.Second * 10)). -/
def retryBackoffSeconds : Nat := 10

/-- The outcome of a retryRPC call: success, the timeout error, the
wrapped unexpected error carrying the operation error message, or the
exceeded-retries error. -/
inductive RetryOutcome where
  | ok
  | timeout
  | unexpected (msg : String)
  | exceeded
deriving DecidableEq, Repr

/-- The loop of retryRPC (service.go lines 958-985), one unfolding per
remaining iteration of retry < retries. doResult k is what the wrapped
operation returns on its k-th invocation (none is success); fired k tells
whether the wall-clock timer had fired when the select statement of the
k-th iteration polls it. Returns the outcome, the number of invocations of
the operation, and the list of backoff sleeps performed in seconds. -/
def retryLoop (doResult : Nat → Option String) (fired : Nat → Bool) :
    Nat → Nat → RetryOutcome × Nat × List Nat
  | _, 0 => (.exceeded, 0, [])
  | k, rem + 1 =>
    if fired k then (.timeout, 0, [])
    else
      match doResult k with
      | none => (.ok, 1, [])
      | some msg =>
        if contains429 msg then
          let step := retryLoop doResult fired (k + 1) rem
          (step.1, step.2.1 + 1, retryBackoffSeconds :: step.2.2)
        else (.unexpected msg, 1, [])

/-- Embeds retryRPC: the loop starts at attempt 0 with retries iterations
available. -/
def retryRPC (doResult : Nat → Option String) (fired : Nat → Bool) (retries : Nat) :
    RetryOutcome × Nat × List Nat :=
  retryLoop doResult fired 0 retries

/-! ### Chunked media upload: service.go uploadImageAppend -/

/-- Embeds the Go constant maxChunkSizeInBytes = 1024 * 1024. -/
def maxChunkSizeInBytes : Nat := 1024 * 1024

/-- The segment decomposition stated by the specification: fixed 1 MiB
segments taken from the front of the buffer, the last segment holding the
remainder. Stated from the words of the spec, to be compared with the
upload loop embedded below. -/
def appendChunks (image : List Nat) : List (List Nat) :=
  if h : image = [] then []
  else
    image.take maxChunkSizeInBytes :: appendChunks (image.drop maxChunkSizeInBytes)
termination_by image.length
decreasing_by
  have hpos : 0 < image.length := List.length_pos.mpr h
  simp only [List.length_drop, maxChunkSizeInBytes]
  omega

/-- Embeds the loop of uploadImageAppend (service.go lines 754-819), with
the segment counter i threaded: while bytes remain, send the next segment
of at most maxChunkSizeInBytes bytes under the current segment index; a
response status outside 200-299 returns the error at once. status i is the
HTTP status the endpoint answers for segment index i. Returns the segments
the loop sent and completed successfully, as index and byte pairs in send
order, and the status of the failing request if one failed. -/
def uploadAppendFrom (status : Nat → Nat) (i : Nat) (image : List Nat) :
    List (Nat × List Nat) × Option Nat :=
  if h : image = [] then ([], none)
  else
    let chunk := image.take (min image.length maxChunkSizeInBytes)
    if 200 ≤ status i ∧ status i < 300 then
      let step := uploadAppendFrom status (i + 1) (image.drop (min image.length maxChunkSizeInBytes))
      ((i, chunk) :: step.1, step.2)
    else ([], some (status i))
termination_by image.length
decreasing_by
  have hpos : 0 < image.length := List.length_pos.mpr h
  simp only [List.length_drop, maxChunkSizeInBytes]
  omega

/-- Embeds uploadImageAppend: the loop starts with segment index 0. -/
def uploadImageAppend (status : Nat → Nat) (image : List Nat) :
    List (Nat × List Nat) × Option Nat :=
  uploadAppendFrom status 0 image

/-- The upload of an already-decomposed segment list, stated from the
words of the spec: send each segment under its index, stop at the first
response outside 200-299. The loop embedded above is proved equal to this
function composed with the segment decomposition. -/
def uploadChunks (status : Nat → Nat) : Nat → List (List Nat) → List (Nat × List Nat) × Option Nat
  | _, [] => ([], none)
  | i, c :: cs =>
    if 200 ≤ status i ∧ status i < 300 then
      let step := uploadChunks status (i + 1) cs
      ((i, c) :: step.1, step.2)
    else ([], some (status i))

/-! ### Sample stores, pages, and environments used by the concrete theorems -/

/-- A sample record for exercising the reader contract. -/
def recC9 : Record :=
  { id := "sigC9", buyer := "", collection := "bad-bromatoes", createdAt := none,
    marketplace := "Alpha Art", mintPubkey := "m", price := 2000000000,
    publishDetails := none, seller := "", saleTime := some "2022-01-03T00:00:00Z",
    nft := { name := "Bromato", symbol := "BRM", metadataURI := "u" },
    twitterMediaID := "" }

/-- A sample update for exercising the writer. -/
def updC7 : Update := { field := "twitterMediaId", value := .str "media-1" }

/-- A sample record for exercising the writer. -/
def recC7 : Record :=
  { id := "sigC7", buyer := "", collection := "bad-bromatoes", createdAt := none,
    marketplace := "Magic Eden", mintPubkey := "m", price := 3000000000,
    publishDetails := none, seller := "", saleTime := some "2022-02-01T00:00:00Z",
    nft := { name := "Bromato", symbol := "BRM", metadataURI := "u" },
    twitterMediaID := "" }

/-- A marketplace sale entry with signature A at event time 5. -/
def sigA : SigInfo :=
  { signature := "A", blockTime := "2021-12-05T00:00:00Z",
    tx := some { err := false, preBalance := 5000000000, postBalance := 3000000000,
                 keys := ["HZaWndaNWHFDd9Dhk5pqUUtsmoBCqzb1MLu3NAh1VX6B"], mint := "mintA" },
    metaName := "Bromato A", metaSymbol := "BRM", metaURI := "uriA" }

/-- A marketplace sale entry with signature B at event time 4; the store
already holds its record. -/
def sigB : SigInfo :=
  { signature := "B", blockTime := "2021-12-04T00:00:00Z",
    tx := some { err := false, preBalance := 4000000000, postBalance := 2000000000,
                 keys := ["HZaWndaNWHFDd9Dhk5pqUUtsmoBCqzb1MLu3NAh1VX6B"], mint := "mintB" },
    metaName := "Bromato B", metaSymbol := "BRM", metaURI := "uriB" }

/-- A marketplace sale entry with signature C at event time 3, new to the
store but behind the stored entry B in feed order. -/
def sigC : SigInfo :=
  { signature := "C", blockTime := "2021-12-03T00:00:00Z",
    tx := some { err := false, preBalance := 6000000000, postBalance := 3500000000,
                 keys := ["HZaWndaNWHFDd9Dhk5pqUUtsmoBCqzb1MLu3NAh1VX6B"], mint := "mintC" },
    metaName := "Bromato C", metaSymbol := "BRM", metaURI := "uriC" }

/-- The record of entry B already present in the store. -/
def recBStored : Record :=
  { id := "B", buyer := "", collection := "bad-bromatoes", createdAt := none,
    marketplace := "Alpha Art", mintPubkey := "mintB", price := 2000000000,
    publishDetails := none, seller := "", saleTime := some "2021-12-04T00:00:00Z",
    nft := { name := "Bromato B", symbol := "BRM", metadataURI := "uriB" },
    twitterMediaID := "" }

/-- An entry at event time 3 placed first in a fetched page. -/
def sigOldC4 : SigInfo :=
  { signature := "old", blockTime := "2021-12-03T00:00:00Z", tx := none,
    metaName := "", metaSymbol := "", metaURI := "" }

/-- An entry at event time 5 placed second in the same page. -/
def sigNewC4 : SigInfo :=
  { signature := "new", blockTime := "2021-12-05T00:00:00Z", tx := none,
    metaName := "", metaSymbol := "", metaURI := "" }

/-- A record already carrying a cached media id, selected for
publication. -/
def recC3 : Record :=
  { id := "sigC3", buyer := "", collection := "bad-bromatoes", createdAt := none,
    marketplace := "Alpha Art", mintPubkey := "mintC3", price := 2500000000,
    publishDetails := none, seller := "", saleTime := some "2022-01-05T00:00:00Z",
    nft := { name := "Bromato C3", symbol := "BRM", metadataURI := "uriC3" },
    twitterMediaID := "cached-media-123" }

/-- A network environment in which every publish call succeeds. -/
def envC3 : PubEnv :=
  { imageURI := fun _ => .ok "img-uri",
    image := fun _ => .ok [7, 7, 7],
    uploadedMediaID := fun _ => .ok "fresh-media",
    tweetID := .ok "tweet-1" }

/-- The comparison the ORDER BY saleTime clause sorts by. -/
def saleTimeLe (r₁ r₂ : Record) : Bool :=
  keyLe (fieldStrValue r₁ "saleTime") (fieldStrValue r₂ "saleTime")

/-- An unpublished record with saleTime 2022-01-01, the oldest one at or
after the cutoff. -/
def recJan1 : Record :=
  { id := "J1", buyer := "", collection := "bad-bromatoes", createdAt := none,
    marketplace := "Alpha Art", mintPubkey := "m1", price := 1500000000,
    publishDetails := none, seller := "", saleTime := some "2022-01-01T00:00:00Z",
    nft := { name := "Bromato J1", symbol := "BRM", metadataURI := "u1" },
    twitterMediaID := "" }

/-- An unpublished record with saleTime 2022-01-02. -/
def recJan2 : Record :=
  { id := "J2", buyer := "", collection := "bad-bromatoes", createdAt := none,
    marketplace := "Alpha Art", mintPubkey := "m2", price := 1600000000,
    publishDetails := none, seller := "", saleTime := some "2022-01-02T00:00:00Z",
    nft := { name := "Bromato J2", symbol := "BRM", metadataURI := "u2" },
    twitterMediaID := "" }

/-- An unpublished record with saleTime before the cutoff, excluded from
publication. -/
def recOldC5 : Record :=
  { id := "OLD", buyer := "", collection := "bad-bromatoes", createdAt := none,
    marketplace := "Alpha Art", mintPubkey := "m0", price := 1700000000,
    publishDetails := none, seller := "", saleTime := some "2021-11-01T00:00:00Z",
    nft := { name := "Bromato OLD", symbol := "BRM", metadataURI := "u0" },
    twitterMediaID := "" }

/-- A network environment for the publication run of the C5 witness. -/
def envC5 : PubEnv :=
  { imageURI := fun _ => .ok "img-uri",
    image := fun _ => .ok [1],
    uploadedMediaID := fun _ => .ok "media-C5",
    tweetID := .ok "tweet-C5" }

/-! ## Lemmas about the comparison functions -/

theorem charListLe_total : ∀ (x y : List Char), (charListLe x y || charListLe y x) = true
  | [], _ => by simp [charListLe]
  | _ :: _, [] => by simp [charListLe]
  | a :: as, b :: bs => by
    by_cases h1 : a.toNat < b.toNat
    · simp [charListLe, h1]
    · by_cases h2 : b.toNat < a.toNat
      · simp [charListLe, h1, h2]
      · simp [charListLe, h1, h2, charListLe_total as bs]

theorem charListLe_cons {a b : Char} {as bs : List Char} :
    charListLe (a :: as) (b :: bs) = true ↔
      a.toNat < b.toNat ∨ (a.toNat = b.toNat ∧ charListLe as bs = true) := by
  rcases Nat.lt_trichotomy a.toNat b.toNat with h | h | h
  · simp [charListLe, h]
  · simp [charListLe, h, Nat.lt_irrefl]
  · have h1 : ¬ a.toNat < b.toNat := by omega
    have h2 : a.toNat ≠ b.toNat := by omega
    simp [charListLe, h, h1, h2]

theorem charListLe_trans :
    ∀ (x y z : List Char),
      charListLe x y = true → charListLe y z = true → charListLe x z = true
  | [], _, _, _, _ => by simp [charListLe]
  | _ :: _, [], _, h1, _ => by simp [charListLe] at h1
  | _ :: _, _ :: _, [], _, h2 => by simp [charListLe] at h2
  | a :: as, b :: bs, c :: cs, h1, h2 => by
    rcases charListLe_cons.mp h1 with hab | ⟨hab, h1'⟩ <;>
      rcases charListLe_cons.mp h2 with hbc | ⟨hbc, h2'⟩ <;>
      apply charListLe_cons.mpr
    · exact Or.inl (by omega)
    · exact Or.inl (by omega)
    · exact Or.inl (by omega)
    · exact Or.inr ⟨by omega, charListLe_trans as bs cs h1' h2'⟩

theorem strLe_total (a b : String) : (strLe a b || strLe b a) = true :=
  charListLe_total a.toList b.toList

theorem strLe_trans {a b c : String} (h1 : strLe a b = true) (h2 : strLe b c = true) :
    strLe a c = true :=
  charListLe_trans a.toList b.toList c.toList h1 h2

theorem keyLe_total (a b : Option String) : (keyLe a b || keyLe b a) = true := by
  cases a <;> cases b <;> simp [keyLe, strLe_total]

theorem keyLe_trans {a b c : Option String} (h1 : keyLe a b = true) (h2 : keyLe b c = true) :
    keyLe a c = true := by
  cases a <;> cases b <;> cases c <;> simp [keyLe] at h1 h2 ⊢
  exact strLe_trans h1 h2

/-! ## Claim theorems -/

/-- Claim C10: for all uint64 balances pre and post, getPrice computes the
absolute difference max(pre, post) - min(pre, post); it is commutative,
never underflows (the result is the exact difference of the larger and the
smaller balance), and is zero exactly when the balances are equal. -/
theorem claim_C10_getPrice (pre post : Nat) :
    getPrice pre post = max pre post - min pre post ∧
    getPrice pre post = getPrice post pre ∧
    (getPrice pre post = 0 ↔ pre = post) := by
  simp only [getPrice]
  split_ifs <;> omega

/-- Claim C2: evaluation of toSolPriceStr at the inputs named by the claim,
plus one more input showing what goes wrong. The claim holds for amounts
below one SOL: the sub-threshold and the nine-digit cases match the claim.
It fails for amounts of one SOL and above: toSolPriceStr 1000000000 is
"1.00000000" with only eight fractional digits, not "1.000000000" — the
dot-splicing loop replaces the tenth-from-last digit array entry instead of
inserting before it, dropping the digit of the 10^8 lamport place, as
toSolPriceStr 1234567890 = "1.34567890" (instead of "1.234567890") shows
even more clearly. -/
theorem claim_C2_toSolPriceStr_eval :
    toSolPriceStr 1000000000 = "1.00000000" ∧
    toSolPriceStr 5000000 = "" ∧
    toSolPriceStr 123456789 = "0.123456789" ∧
    toSolPriceStr 1234567890 = "1.34567890" :=
  ⟨by decide, by decide, by decide, by decide⟩

/-- Claim C9: reader.List never returns an empty sequence together with a
nil error — zero rows are reported as ErrNotFound instead — so on the
nil-error path the row list always has a first element and the res[0]
accesses of the callers getOldestSaleSignature and getOldestNonPublished
are in bounds. -/
theorem claim_C9_list_nonempty (db : List Record) (cond : Condition)
    (rs : List Record) (h : listRecords db cond = .ok rs) : 0 < rs.length := by
  simp only [listRecords] at h
  by_cases he : (listQuery db cond).isEmpty
  · simp [he] at h
  · have hne : listQuery db cond ≠ [] := fun hnil => he (by simp [hnil])
    simp only [he, if_false, Bool.false_eq_true] at h
    injection h with h'
    rw [← h']
    exact List.length_pos.mpr hne

/-- Witness for C9: a store holding one record makes the oldest-sale query
of getOldestSaleSignature return a nil error with one row. -/
theorem claim_C9_witness :
    listRecords [recC9] oldestSaleCond = .ok [recC9] ∧
    0 < ([recC9] : List Record).length := by
  have h : listRecords [recC9] oldestSaleCond = .ok [recC9] := by
    simp [listRecords, listQuery, applyOrder, applyLimit, oldestSaleCond,
      List.filter, List.mergeSort_singleton]
  exact ⟨h, claim_C9_list_nonempty [recC9] oldestSaleCond [recC9] h⟩

/-- The UPDATE statement touches no record when none has the requested id. -/
theorem updateMatch_no_match (id : String) (updates : List Update) :
    ∀ db : List Record, (∀ r ∈ db, r.id ≠ id) → updateMatch id updates db = db
  | [], _ => rfl
  | r :: rest, h => by
    have hr : r.id ≠ id := h r (List.mem_cons_self r rest)
    simp only [updateMatch, if_neg hr]
    rw [updateMatch_no_match id updates rest (fun r' hr' => h r' (List.mem_cons_of_mem r hr'))]

/-- The UPDATE statement rewrites exactly the first record with the
requested id and leaves every other record unchanged. -/
theorem updateMatch_first (id : String) (updates : List Update) :
    ∀ (pre : List Record) (r : Record) (post : List Record),
      (∀ r' ∈ pre, r'.id ≠ id) → r.id = id →
      updateMatch id updates (pre ++ r :: post) =
        pre ++ (updates.foldl applyUpdate r) :: post
  | [], r, post, _, hr => by simp [updateMatch, hr]
  | p :: pre, r, post, hpre, hr => by
    have hp : p.id ≠ id := hpre p (List.mem_cons_self p pre)
    simp only [List.cons_append, updateMatch, if_neg hp]
    have := updateMatch_first id updates pre r post
      (fun r' hr' => hpre r' (List.mem_cons_of_mem p hr')) hr
    simpa [List.append_eq] using this

/-- Counterexample to claim C7: with an empty store no record matches the
id, yet UpdateFields succeeds (the statement result is discarded and a
zero-match N1QL UPDATE is not an error), contradicting the claimed failure
on zero matches. -/
theorem claim_C7_counterexample :
    (∀ r ∈ ([] : List Record), r.id ≠ "sig1") ∧
    updateFields [] "sig1" [updC7] = .ok [] :=
  ⟨fun r hr => absurd hr (List.not_mem_nil r), rfl⟩

/-- Claim C7 (amended): for every id and non-empty update list,
UpdateFields applies the update to at most one matching record — the
first record carrying the id receives every field assignment, every other
record is untouched — and when zero records match it succeeds without
modifying anything rather than failing. -/
theorem claim_C7_update_fields (db : List Record) (id : String) (updates : List Update)
    (h : updates ≠ []) :
    updateFields db id updates = .ok (updateMatch id updates db) ∧
    ((∀ r ∈ db, r.id ≠ id) → updateMatch id updates db = db) ∧
    (∀ pre r post, db = pre ++ r :: post → (∀ r' ∈ pre, r'.id ≠ id) → r.id = id →
      updateMatch id updates db = pre ++ (updates.foldl applyUpdate r) :: post) := by
  refine ⟨?_, fun hnone => updateMatch_no_match id updates db hnone, ?_⟩
  · simp [updateFields, List.isEmpty_iff, h]
  · intro pre r post hdb hpre hr
    rw [hdb]
    exact updateMatch_first id updates pre r post hpre hr

/-- Witness for C7: a one-record store and a one-field update. -/
theorem claim_C7_witness :
    ([updC7] ≠ ([] : List Update)) ∧
    updateFields [recC7] "sigC7" [updC7] = .ok (updateMatch "sigC7" [updC7] [recC7]) := by
  have h : ([updC7] : List Update) ≠ [] := by simp
  exact ⟨h, (claim_C7_update_fields [recC7] "sigC7" [updC7] h).1⟩

/-- The retry loop never invokes the operation more often than it has
iterations available. -/
theorem retryLoop_attempts_le (d : Nat → Option String) (f : Nat → Bool) :
    ∀ (rem k : Nat), (retryLoop d f k rem).2.1 ≤ rem
  | 0, _ => by simp [retryLoop]
  | rem + 1, k => by
    simp only [retryLoop]
    by_cases hf : f k = true
    · simp [hf]
    · simp only [hf, if_false, Bool.false_eq_true]
      cases hd : d k with
      | none => simp
      | some msg =>
        by_cases h429 : contains429 msg = true
        · simp only [h429, if_true]
          have := retryLoop_attempts_le d f rem (k + 1)
          simpa using Nat.add_le_add_right this 1
        · simp [h429]

/-- Every sleep the retry loop performs is the fixed backoff. -/
theorem retryLoop_sleeps (d : Nat → Option String) (f : Nat → Bool) :
    ∀ (rem k : Nat), ∀ x ∈ (retryLoop d f k rem).2.2, x = retryBackoffSeconds
  | 0, _ => by simp [retryLoop]
  | rem + 1, k => by
    simp only [retryLoop]
    by_cases hf : f k = true
    · simp [hf]
    · simp only [hf, if_false, Bool.false_eq_true]
      cases hd : d k with
      | none => simp
      | some msg =>
        by_cases h429 : contains429 msg = true
        · simp only [h429, if_true]
          intro x hx
          rcases List.mem_cons.mp hx with rfl | hx'
          · rfl
          · exact retryLoop_sleeps d f rem (k + 1) x hx'
        · simp [h429]

/-- Once the timer has fired at the top of an iteration, the loop returns
the timeout error there, with one prior invocation and one backoff sleep
per earlier rate-limited attempt. -/
theorem retryLoop_timeout (d : Nat → Option String) (f : Nat → Bool) :
    ∀ (k rem i : Nat), k < rem →
      (∀ j, j < k → f (i + j) = false ∧ ∃ m, d (i + j) = some m ∧ contains429 m = true) →
      f (i + k) = true →
      retryLoop d f i rem = (.timeout, k, List.replicate k retryBackoffSeconds)
  | 0, rem, i, hk, _, hf => by
    obtain ⟨rem', rfl⟩ : ∃ r, rem = r + 1 := ⟨rem - 1, by omega⟩
    rw [Nat.add_zero] at hf
    simp [retryLoop, hf]
  | k + 1, rem, i, hk, hprev, hf => by
    obtain ⟨rem', rfl⟩ : ∃ r, rem = r + 1 := ⟨rem - 1, by omega⟩
    obtain ⟨hf0, m, hm, h429⟩ := hprev 0 (Nat.succ_pos k)
    rw [Nat.add_zero] at hf0 hm
    have IH := retryLoop_timeout d f k rem' (i + 1) (by omega)
      (fun j hj => by
        have hjs := hprev (j + 1) (by omega)
        have heq : i + (j + 1) = i + 1 + j := by omega
        rwa [heq] at hjs)
      (by
        have heq : i + (k + 1) = i + 1 + k := by omega
        rwa [heq] at hf)
    simp only [retryLoop, hf0, if_false, Bool.false_eq_true, hm, h429, if_true, IH,
      List.replicate_succ]

/-- Claim C6: retryRPC returns the wrapped operation error after a single
attempt when the failure is not a recognized rate-limit (429) condition;
on rate-limit failures it re-attempts at most the given number of times
with the fixed ten-second (non-exponential) backoff between attempts; and
once the wall-clock timer has fired before success it returns the timeout
error even if attempts remain. -/
theorem claim_C6_retryRPC (doResult : Nat → Option String) (fired : Nat → Bool)
    (retries : Nat) (msg : String) :
    (0 < retries → fired 0 = false → doResult 0 = some msg → contains429 msg = false →
      retryRPC doResult fired retries = (.unexpected msg, 1, [])) ∧
    (retryRPC doResult fired retries).2.1 ≤ retries ∧
    (∀ x ∈ (retryRPC doResult fired retries).2.2, x = retryBackoffSeconds) ∧
    (∀ k, k < retries →
      (∀ j, j < k → fired j = false ∧ ∃ m, doResult j = some m ∧ contains429 m = true) →
      fired k = true →
      retryRPC doResult fired retries = (.timeout, k, List.replicate k retryBackoffSeconds)) := by
  refine ⟨?_, retryLoop_attempts_le doResult fired retries 0,
    retryLoop_sleeps doResult fired retries 0, ?_⟩
  · intro hr hf hd h429
    obtain ⟨r, rfl⟩ : ∃ r, retries = r + 1 := ⟨retries - 1, by omega⟩
    simp [retryRPC, retryLoop, hf, hd, h429]
  · intro k hk hprev hf
    exact retryLoop_timeout doResult fired k retries 0 hk
      (fun j hj => by simpa using hprev j hj) (by simpa using hf)

/-- Witness for C6: a non-rate-limit failure returns the wrapped error
after one attempt; a timer firing at the third iteration after two
rate-limited attempts yields the timeout with two fixed backoff sleeps. -/
theorem claim_C6_witness :
    retryRPC (fun _ => some "server error 500") (fun _ => false) 3 =
      (.unexpected "server error 500", 1, []) ∧
    retryRPC (fun _ => some "exceeded 429 limit") (fun k => decide (2 ≤ k)) 3 =
      (.timeout, 2, [retryBackoffSeconds, retryBackoffSeconds]) := by
  constructor
  · exact (claim_C6_retryRPC (fun _ => some "server error 500") (fun _ => false) 3
      "server error 500").1 (by omega) rfl rfl (by decide)
  · have h := (claim_C6_retryRPC (fun _ => some "exceeded 429 limit")
      (fun k => decide (2 ≤ k)) 3 "unused").2.2.2 2 (by omega)
      (fun j hj => ⟨decide_eq_false_iff_not.mpr (by omega),
        "exceeded 429 limit", rfl, by decide⟩)
      (by decide)
    simpa [List.replicate] using h

/-- Growing the store preserves a successful caught-up check: reader.Get
still finds the record after later inserts. -/
theorem isCaughtUp_mono {db : List Record} {s : String} (extra : List Record)
    (h : isCaughtUp db s = true) : isCaughtUp (db ++ extra) s = true := by
  unfold isCaughtUp getRecord at h ⊢
  cases hf : db.find? (fun r => r.id = s) with
  | none => rw [hf] at h; simp at h
  | some r => simp [List.find?_append, hf]

/-- If the store already holds the signature of the page entry at index i,
the inner loop stops at some index k at or before i: the page contributes
exactly the sale records of the entries before k, and the caught-up break
fires. -/
theorem processPage_stops :
    ∀ (page : List SigInfo) (db : List Record) (i : Nat) (hi : i < page.length),
      isCaughtUp db (page.get ⟨i, hi⟩).signature = true →
      ∃ k, k ≤ i ∧ processPage db page = ((page.take k).filterMap saleRecordOf, true)
  | [], _, i, hi, _ => absurd hi (by simp)
  | sig :: rest, db, i, hi, hc => by
    by_cases h0 : isCaughtUp db sig.signature = true
    · exact ⟨0, Nat.zero_le i, by simp [processPage, h0]⟩
    · cases i with
      | zero => exact absurd hc h0
      | succ j =>
        have hj : j < rest.length := by simpa using hi
        have hc' : isCaughtUp db (rest.get ⟨j, hj⟩).signature = true := hc
        cases hrec : saleRecordOf sig with
        | none =>
          obtain ⟨k, hk, heq⟩ := processPage_stops rest db j hj hc'
          exact ⟨k + 1, by omega, by simp [processPage, h0, hrec, heq]⟩
        | some rec =>
          obtain ⟨k, hk, heq⟩ :=
            processPage_stops rest (db ++ [rec]) j hj (isCaughtUp_mono [rec] hc')
          exact ⟨k + 1, by omega, by simp [processPage, h0, hrec, heq]⟩

/-- Claim C1: in every ingestion run, if the record store already contains
the id of the page entry at index i, the run stops at the first stored
entry, at some index k at or before i: the records the whole run creates
are exactly the sale records of the entries of that page strictly before
index k, so nothing is created for the stored entry nor for any entry
after it in feed order, and the remaining pages are never processed. -/
theorem claim_C1_caught_up_stops (db : List Record) (page : List SigInfo)
    (ps : List (List SigInfo)) (i : Nat) (hi : i < page.length)
    (hstored : isCaughtUp db (page.get ⟨i, hi⟩).signature = true) :
    ∃ k, k ≤ i ∧ processPages db (page :: ps) = (page.take k).filterMap saleRecordOf := by
  obtain ⟨k, hk, heq⟩ := processPage_stops page db i hi hstored
  have hne : page.isEmpty = false := by
    cases page
    · simp at hi
    · simp
  exact ⟨k, hk, by simp [processPages, hne, heq]⟩

/-- Witness for C1, the page [A(t=5), B(t=4), C(t=3)] with B already in
the store: the run creates only the record of A and never one for C. -/
theorem claim_C1_witness :
    isCaughtUp [recBStored] sigB.signature = true ∧
    (∃ k, k ≤ 1 ∧ processPages [recBStored] [[sigA, sigB, sigC]] =
      ([sigA, sigB, sigC].take k).filterMap saleRecordOf) ∧
    (processPages [recBStored] [[sigA, sigB, sigC]]).map Record.id = ["A"] :=
  ⟨by decide,
   claim_C1_caught_up_stops [recBStored] [sigA, sigB, sigC] [] 1 (by decide) (by decide),
   by decide⟩

/-- Every page is examined in feed order: the entries the inner loop
processes are an initial segment of the fetched page, exactly as the
source returned it. SaveNewSales performs no sorting. -/
theorem processedEntries_take_eq :
    ∀ (page : List SigInfo) (db : List Record),
      ∃ k, processedEntries db page = page.take k
  | [], _ => ⟨0, rfl⟩
  | sig :: rest, db => by
    by_cases h0 : isCaughtUp db sig.signature = true
    · exact ⟨1, by simp [processedEntries, h0]⟩
    · cases hrec : saleRecordOf sig with
      | none =>
        obtain ⟨k, hk⟩ := processedEntries_take_eq rest db
        exact ⟨k + 1, by simp [processedEntries, h0, hrec, hk]⟩
      | some rec =>
        obtain ⟨k, hk⟩ := processedEntries_take_eq rest (db ++ [rec])
        exact ⟨k + 1, by simp [processedEntries, h0, hrec, hk]⟩

/-- Claim C4 (amended): SaveNewSales does not sort fetched pages. The
entries it processes form an initial segment of the page in the order the
source returned it, so entries are processed in descending event-time
order only when the source already delivers them that way. -/
theorem claim_C4_feed_order (db : List Record) (page : List SigInfo) :
    ∃ k, processedEntries db page = page.take k :=
  processedEntries_take_eq page db

/-- Counterexample to claim C4: a page the source returns out of order is
processed exactly in that order — the second processed entry has a
strictly later event time than the first, so entries are not processed in
descending event-time order and no defensive sort happens. -/
theorem claim_C4_counterexample :
    processedEntries [] [sigOldC4, sigNewC4] = [sigOldC4, sigNewC4] ∧
    strLe sigNewC4.blockTime sigOldC4.blockTime = false :=
  ⟨by decide, by decide⟩

/-- When the media pipeline succeeds, its trace is exactly resolve,
download, upload. -/
theorem processMetadataImage_ok (env : PubEnv) (rec : Record) (mediaID : String)
    (h : (processMetadataImage env rec).1 = .ok mediaID) :
    processMetadataImage env rec = (.ok mediaID, [.resolveMeta, .download, .upload]) := by
  unfold processMetadataImage at h ⊢
  revert h
  cases env.imageURI rec.nft.metadataURI with
  | error e => intro h; simp at h
  | ok uri =>
    dsimp only
    cases env.image uri with
    | error e => intro h; simp at h
    | ok img =>
      dsimp only
      cases env.uploadedMediaID img with
      | error e => intro h; simp at h
      | ok mid =>
        intro h
        simp only [Except.ok.injEq] at h
        simp [h]

/-- The media pipeline always starts with the metadata resolution call. -/
theorem processMetadataImage_starts (env : PubEnv) (rec : Record) :
    ∃ t, (processMetadataImage env rec).2 = Step.resolveMeta :: t := by
  unfold processMetadataImage
  cases env.imageURI rec.nft.metadataURI with
  | error e => exact ⟨[], rfl⟩
  | ok uri =>
    dsimp only
    cases env.image uri with
    | error e => exact ⟨[.download], rfl⟩
    | ok img =>
      dsimp only
      cases env.uploadedMediaID img with
      | error e => exact ⟨[.download, .upload], rfl⟩
      | ok mid => exact ⟨[.download, .upload], rfl⟩

/-- Claim C3 (amended): PublishNewSales never skips the media pipeline.
Whenever a record is selected — whatever its cached TwitterMediaID — the
metadata resolution call is made; when the pipeline succeeds the run
performs resolve, download, upload and then posting (the store update
follows when the post succeeds); and the pipeline behaves identically for
every value of the cached TwitterMediaID, which it never reads. -/
theorem claim_C3_always_runs_pipeline (db : List Record) (env : PubEnv) (rec : Record)
    (m : String) (hsel : getOldestNonPublished db = .ok rec) :
    (∃ t, (publishNewSales db env false none).steps = Step.resolveMeta :: t) ∧
    (∀ mediaID, (processMetadataImage env rec).1 = .ok mediaID →
      (publishNewSales db env false none).steps =
          [.resolveMeta, .download, .upload, .post, .update] ∨
        (publishNewSales db env false none).steps =
          [.resolveMeta, .download, .upload, .post]) ∧
    processMetadataImage env { rec with twitterMediaID := m } =
      processMetadataImage env rec := by
  refine ⟨?_, ?_, rfl⟩
  · obtain ⟨t, ht⟩ := processMetadataImage_starts env rec
    unfold publishNewSales
    rw [hsel]
    dsimp only
    cases hp : processMetadataImage env rec with
    | mk res steps =>
      rw [hp] at ht
      simp only at ht
      cases res with
      | error e => exact ⟨t, by simpa using ht⟩
      | ok mediaID =>
        dsimp only
        cases env.tweetID with
        | error e => exact ⟨t ++ [.post], by simp [ht]⟩
        | ok tweetID =>
          dsimp only
          cases updateFields db rec.id
              [ { field := "twitterMediaId", value := .str mediaID },
                { field := "publishDetails",
                  value := .pub { id := tweetID, channel := "twitter",
                                  time := none, success := true } } ] with
          | ok db' => exact ⟨t ++ [.post, .update], by simp [ht]⟩
          | error e => exact ⟨t ++ [.post, .update], by simp [ht]⟩
  · intro mediaID hok
    have hp := processMetadataImage_ok env rec mediaID hok
    unfold publishNewSales
    rw [hsel]
    dsimp only
    rw [hp]
    dsimp only
    cases env.tweetID with
    | error e => exact Or.inr (by simp)
    | ok tweetID =>
      dsimp only
      cases updateFields db rec.id
          [ { field := "twitterMediaId", value := .str mediaID },
            { field := "publishDetails",
              value := .pub { id := tweetID, channel := "twitter",
                              time := none, success := true } } ] with
      | ok db' => exact Or.inl (by simp)
      | error e => exact Or.inl (by simp)

/-- The one-record store selects recC3 for publication. -/
theorem recC3_selected : getOldestNonPublished [recC3] = .ok recC3 := by
  have hf : List.filter (fun r => oldestNonPublishedCond.wheres.all (evalWhere r))
      [recC3] = [recC3] := by decide
  unfold getOldestNonPublished listRecords listQuery
  rw [hf]
  simp [applyOrder, applyLimit, oldestNonPublishedCond, List.mergeSort_singleton]

/-- Counterexample to claim C3: the selected record has a non-empty cached
TwitterMediaID, yet the publish run still performs metadata resolution,
image download, and the media upload before posting — PublishNewSales
never checks the cached media id. -/
theorem claim_C3_counterexample :
    recC3.twitterMediaID ≠ "" ∧
    getOldestNonPublished [recC3] = .ok recC3 ∧
    (publishNewSales [recC3] envC3 false none).steps =
      [.resolveMeta, .download, .upload, .post, .update] := by
  refine ⟨by decide, recC3_selected, ?_⟩
  unfold publishNewSales
  rw [recC3_selected]
  dsimp only
  have hp : processMetadataImage envC3 recC3 =
      (.ok "fresh-media", [.resolveMeta, .download, .upload]) := rfl
  rw [hp]
  rfl

/-- Witness for C3 (amended): on the same store and environment, the run
starts with metadata resolution although the cached media id is set, and
the pipeline ignores the cached TwitterMediaID entirely. -/
theorem claim_C3_witness :
    (∃ t, (publishNewSales [recC3] envC3 false none).steps = Step.resolveMeta :: t) ∧
    processMetadataImage envC3 { recC3 with twitterMediaID := "another-media" } =
      processMetadataImage envC3 recC3 := by
  have h := claim_C3_always_runs_pipeline [recC3] envC3 recC3 "another-media" recC3_selected
  exact ⟨h.1, h.2.2⟩

theorem strLe_refl (a : String) : strLe a a = true := by
  cases h : strLe a a
  · have := strLe_total a a
    rw [h] at this
    simpa using this
  · rfl

/-- A record matches the WHERE clauses of the publication selection query
exactly when its publishDetails is null and its saleTime is present and at
or after the cutoff. -/
theorem matchesPubCond (r : Record) :
    oldestNonPublishedCond.wheres.all (evalWhere r) = true ↔
      r.publishDetails = none ∧
        ∃ t, r.saleTime = some t ∧ strLe publishCutoff t = true := by
  cases hp : r.publishDetails <;> cases hs : r.saleTime <;>
    simp [oldestNonPublishedCond, evalWhere, fieldIsNull, fieldStrValue, hp, hs,
      publishCutoff]

/-- The rows of the publication selection query are the single least
matching record under the saleTime order. -/
theorem listQuery_pub (db : List Record) :
    listQuery db oldestNonPublishedCond =
      (List.mergeSort
        (db.filter (fun r => oldestNonPublishedCond.wheres.all (evalWhere r)))
        saleTimeLe).take 1 := by
  rfl

/-- The record the publication selection returns is a matching record of
the store with the least saleTime among all matching records. -/
theorem getOldestNonPublished_ok (db : List Record) (r : Record)
    (h : getOldestNonPublished db = .ok r) :
    r ∈ db ∧ r.publishDetails = none ∧
      ∃ t, r.saleTime = some t ∧ strLe publishCutoff t = true ∧
        ∀ r' ∈ db, r'.publishDetails = none →
          ∀ t', r'.saleTime = some t' → strLe publishCutoff t' = true →
            strLe t t' = true := by
  unfold getOldestNonPublished at h
  set p : Record → Bool := fun r => oldestNonPublishedCond.wheres.all (evalWhere r) with hpdef
  set sorted := List.mergeSort (db.filter p) saleTimeLe with hsorted
  have hq : listQuery db oldestNonPublishedCond = sorted.take 1 := listQuery_pub db
  revert h
  cases hL : listRecords db oldestNonPublishedCond with
  | error e => intro h; simp at h
  | ok rs =>
    intro h
    simp only [Except.ok.injEq] at h
    subst h
    -- rs is the nonempty row list, equal to sorted.take 1
    have hrs : rs = sorted.take 1 ∧ rs ≠ [] := by
      unfold listRecords at hL
      by_cases he : (listQuery db oldestNonPublishedCond).isEmpty
      · simp [he] at hL
      · have hne : listQuery db oldestNonPublishedCond ≠ [] := fun hnil => he (by simp [hnil])
        simp only [he, if_false, Bool.false_eq_true, Except.ok.injEq] at hL
        exact ⟨hL ▸ hq.symm ▸ (hq ▸ rfl), hL ▸ hne⟩
    obtain ⟨hrs1, hrs2⟩ := hrs
    -- sorted is nonempty; its head is the selected record
    cases hsrt : sorted with
    | nil => rw [hsrt] at hrs1; simp [hrs1] at hrs2
    | cons s₀ tail =>
      rw [hsrt] at hrs1
      simp only [List.take_succ_cons, List.take_zero] at hrs1
      subst hrs1
      simp only [List.headI]
      -- s₀ is a matching record of the store
      have hmem : s₀ ∈ List.mergeSort (db.filter p) saleTimeLe := by
        rw [← hsorted, hsrt]; exact List.mem_cons_self s₀ tail
      have hmem' : s₀ ∈ db.filter p := List.mem_mergeSort.mp hmem
      have hdb : s₀ ∈ db := List.mem_of_mem_filter hmem'
      have hmatch : p s₀ = true := List.of_mem_filter hmem'
      obtain ⟨hnull, t, hst, hcut⟩ := (matchesPubCond s₀).mp hmatch
      refine ⟨hdb, hnull, t, hst, hcut, ?_⟩
      -- minimality against every matching record of the store
      intro r' hr' hnull' t' hst' hcut'
      have hmatch' : p r' = true := (matchesPubCond r').mpr ⟨hnull', t', hst', hcut'⟩
      have hmem'' : r' ∈ List.mergeSort (db.filter p) saleTimeLe :=
        List.mem_mergeSort.mpr (List.mem_filter.mpr ⟨hr', hmatch'⟩)
      rw [← hsorted, hsrt] at hmem''
      rcases List.mem_cons.mp hmem'' with rfl | htail
      · rw [hst] at hst'
        injection hst' with hteq
        rw [← hteq]
        exact strLe_refl t
      · have hpw : (List.mergeSort (db.filter p) saleTimeLe).Pairwise
            (fun a b => saleTimeLe a b = true) := by
          have := @List.sorted_mergeSort Record saleTimeLe
            (fun a b c hab hbc => keyLe_trans hab hbc)
            (fun a b => keyLe_total _ _)
            (db.filter p)
          simpa using this
        rw [← hsorted, hsrt] at hpw
        have hle : saleTimeLe s₀ r' = true :=
          (List.pairwise_cons.mp hpw).1 r' htail
        unfold saleTimeLe at hle
        have hkey : fieldStrValue s₀ "saleTime" = some t := by
          simpa [fieldStrValue] using hst
        have hkey' : fieldStrValue r' "saleTime" = some t' := by
          simpa [fieldStrValue] using hst'
        rw [hkey, hkey'] at hle
        simpa [keyLe] using hle

/-- Claim C5: the publication selection query returns a single record of
the store with null publishDetails and saleTime at or after the fixed
cutoff 2021-12-01T00:00:00Z, with the least saleTime among such records —
in particular a record with saleTime before the cutoff is never selected —
and when no record matches, PublishNewSales treats NotFound as nothing to
publish and returns success. -/
theorem claim_C5_selection (db : List Record) :
    (∀ r, getOldestNonPublished db = .ok r →
      r ∈ db ∧ r.publishDetails = none ∧
        ∃ t, r.saleTime = some t ∧ strLe publishCutoff t = true ∧
          ∀ r' ∈ db, r'.publishDetails = none →
            ∀ t', r'.saleTime = some t' → strLe publishCutoff t' = true →
              strLe t t' = true) ∧
    (listQuery db oldestNonPublishedCond = [] →
      ∀ env skipPublish now, (publishNewSales db env skipPublish now).result = .ok ()) := by
  constructor
  · exact fun r h => getOldestNonPublished_ok db r h
  · intro hq env skipPublish now
    have hsel : getOldestNonPublished db = .error .notFound := by
      simp [getOldestNonPublished, listRecords, hq]
    unfold publishNewSales
    rw [hsel]

/-- On the three-record store the selection picks the 2022-01-01 record:
the pre-cutoff record is filtered out and the older of the two eligible
records wins. -/
theorem recJan1_selected :
    getOldestNonPublished [recJan2, recOldC5, recJan1] = .ok recJan1 := by
  have hf : List.filter (fun r => oldestNonPublishedCond.wheres.all (evalWhere r))
      [recJan2, recOldC5, recJan1] = [recJan2, recJan1] := by decide
  have hms : List.mergeSort [recJan2, recJan1] saleTimeLe = [recJan1, recJan2] := by
    rw [List.mergeSort]
    have h1 : (↑(List.splitInTwo ⟨[recJan2, recJan1], rfl⟩).1 : List Record) = [recJan2] := rfl
    have h2 : (↑(List.splitInTwo ⟨[recJan2, recJan1], rfl⟩).2 : List Record) = [recJan1] := rfl
    rw [h1, h2, List.mergeSort_singleton, List.mergeSort_singleton,
      List.cons_merge_cons_neg _ _ _ (by decide)]
    simp
  have hlq : listQuery [recJan2, recOldC5, recJan1] oldestNonPublishedCond = [recJan1] := by
    rw [listQuery_pub, hf, hms]
    rfl
  have hlr : listRecords [recJan2, recOldC5, recJan1] oldestNonPublishedCond
      = .ok [recJan1] := by
    simp [listRecords, hlq]
  unfold getOldestNonPublished
  rw [hlr]
  rfl

/-- Witness for C5: the concrete three-record store from the specification
example, and the quiet success on an empty store. -/
theorem claim_C5_witness :
    (recJan1 ∈ [recJan2, recOldC5, recJan1] ∧ recJan1.publishDetails = none ∧
      ∃ t, recJan1.saleTime = some t ∧ strLe publishCutoff t = true ∧
        ∀ r' ∈ [recJan2, recOldC5, recJan1], r'.publishDetails = none →
          ∀ t', r'.saleTime = some t' → strLe publishCutoff t' = true →
            strLe t t' = true) ∧
    (publishNewSales [] envC5 false none).result = .ok () := by
  constructor
  · exact (claim_C5_selection [recJan2, recOldC5, recJan1]).1 recJan1 recJan1_selected
  · exact (claim_C5_selection []).2
      (by simp [listQuery, applyOrder, applyLimit, oldestNonPublishedCond])
      envC5 false none

/-- The segment decomposition of the empty buffer is empty. -/
theorem appendChunks_nil : appendChunks [] = [] := by
  rw [appendChunks]
  simp

/-- The concatenation of the segments is the original buffer. -/
theorem appendChunks_join (image : List Nat) : (appendChunks image).flatten = image := by
  rw [appendChunks]
  by_cases h : image = []
  · simp [h]
  · simp only [dif_neg h, List.flatten_cons,
      appendChunks_join (image.drop maxChunkSizeInBytes)]
    exact List.take_append_drop _ _
termination_by image.length
decreasing_by
  have hpos : 0 < image.length := List.length_pos.mpr h
  simp only [List.length_drop, maxChunkSizeInBytes]
  omega

/-- The number of segments is the length of the buffer divided by the
segment size, rounded up. -/
theorem appendChunks_length (image : List Nat) :
    (appendChunks image).length =
      (image.length + maxChunkSizeInBytes - 1) / maxChunkSizeInBytes := by
  rw [appendChunks]
  by_cases h : image = []
  · simp [h, maxChunkSizeInBytes]
  · have hpos : 0 < image.length := List.length_pos.mpr h
    rw [dif_neg h, List.length_cons, appendChunks_length (image.drop maxChunkSizeInBytes)]
    simp only [List.length_drop, maxChunkSizeInBytes]
    omega
termination_by image.length
decreasing_by
  have hpos : 0 < image.length := List.length_pos.mpr h
  simp only [List.length_drop, maxChunkSizeInBytes]
  omega

/-- Every segment is non-empty and at most the fixed segment size. -/
theorem appendChunks_size (image : List Nat) :
    ∀ c ∈ appendChunks image, 0 < c.length ∧ c.length ≤ maxChunkSizeInBytes := by
  rw [appendChunks]
  by_cases h : image = []
  · simp [h]
  · simp only [dif_neg h, List.mem_cons]
    intro c hc
    rcases hc with rfl | hc
    · have hpos : 0 < image.length := List.length_pos.mpr h
      constructor
      · simp only [List.length_take, maxChunkSizeInBytes]
        omega
      · simp only [List.length_take]
        omega
    · exact appendChunks_size (image.drop maxChunkSizeInBytes) c hc
termination_by image.length
decreasing_by
  have hpos : 0 < image.length := List.length_pos.mpr h
  simp only [List.length_drop, maxChunkSizeInBytes]
  omega

/-- Every segment except the last has exactly the fixed segment size. -/
theorem appendChunks_full (image : List Nat) :
    ∀ c ∈ (appendChunks image).dropLast, c.length = maxChunkSizeInBytes := by
  rw [appendChunks]
  by_cases h : image = []
  · simp [h]
  · simp only [dif_neg h]
    cases hrest : appendChunks (image.drop maxChunkSizeInBytes) with
    | nil => simp
    | cons c₀ cs =>
      intro c hc
      rw [List.dropLast_cons₂] at hc
      rcases List.mem_cons.mp hc with rfl | hc'
      · -- the head segment is full because bytes remain after it
        have hdrop : image.drop maxChunkSizeInBytes ≠ [] := by
          intro hnil
          rw [hnil, appendChunks_nil] at hrest
          exact absurd hrest (by simp)
        have hlen : maxChunkSizeInBytes < image.length := by
          have := List.length_pos.mpr hdrop
          simp only [List.length_drop] at this
          omega
        simp only [List.length_take]
        omega
      · have := appendChunks_full (image.drop maxChunkSizeInBytes) c
        rw [hrest] at this
        exact this hc'
termination_by image.length
decreasing_by
  have hpos : 0 < image.length := List.length_pos.mpr h
  simp only [List.length_drop, maxChunkSizeInBytes]
  omega

/-- The upload loop is the chunk-by-chunk upload of the segment
decomposition. -/
theorem uploadAppendFrom_eq (status : Nat → Nat) (image : List Nat) (i : Nat) :
    uploadAppendFrom status i image = uploadChunks status i (appendChunks image) := by
  rw [uploadAppendFrom, appendChunks]
  by_cases h : image = []
  · simp [h, uploadChunks]
  · have hmin1 : image.take (min image.length maxChunkSizeInBytes)
        = image.take maxChunkSizeInBytes := by
      rcases Nat.le_total image.length maxChunkSizeInBytes with hle | hle
      · rw [Nat.min_eq_left hle, List.take_length, List.take_of_length_le hle]
      · rw [Nat.min_eq_right hle]
    have hmin2 : image.drop (min image.length maxChunkSizeInBytes)
        = image.drop maxChunkSizeInBytes := by
      rcases Nat.le_total image.length maxChunkSizeInBytes with hle | hle
      · rw [Nat.min_eq_left hle, List.drop_length, List.drop_eq_nil_of_le hle]
      · rw [Nat.min_eq_right hle]
    simp only [dif_neg h, hmin1, hmin2, uploadChunks]
    by_cases h2 : 200 ≤ status i ∧ status i < 300
    · simp only [if_pos h2,
        uploadAppendFrom_eq status (image.drop maxChunkSizeInBytes) (i + 1)]
    · simp only [if_neg h2]
termination_by image.length
decreasing_by
  have hpos : 0 < image.length := List.length_pos.mpr h
  simp only [List.length_drop, maxChunkSizeInBytes]
  omega

/-- When every response is 2xx, the chunk upload sends every segment under
consecutive indices starting at i. -/
theorem uploadChunks_success (status : Nat → Nat) :
    ∀ (cs : List (List Nat)) (i : Nat),
      (∀ j, j < cs.length → 200 ≤ status (i + j) ∧ status (i + j) < 300) →
      uploadChunks status i cs = ((List.range' i cs.length).zip cs, none)
  | [], i, _ => by simp [uploadChunks]
  | c :: cs, i, h2xx => by
    have h0 := h2xx 0 (Nat.succ_pos cs.length)
    rw [Nat.add_zero] at h0
    have IH := uploadChunks_success status cs (i + 1)
      (fun j hj => by
        have := h2xx (j + 1) (by simp only [List.length_cons]; omega)
        have heq : i + (j + 1) = i + 1 + j := by omega
        rwa [heq] at this)
    simp [uploadChunks, h0, IH, List.range'_succ]

/-- When the response for segment k is the first one outside 2xx, the
chunk upload stops there: only the k earlier segments were sent and the
failing status is reported. -/
theorem uploadChunks_abort (status : Nat → Nat) :
    ∀ (cs : List (List Nat)) (i k : Nat), k < cs.length →
      (∀ j, j < k → 200 ≤ status (i + j) ∧ status (i + j) < 300) →
      ¬ (200 ≤ status (i + k) ∧ status (i + k) < 300) →
      uploadChunks status i cs =
        ((List.range' i k).zip (cs.take k), some (status (i + k)))
  | [], _, k, hk, _, _ => absurd hk (by simp)
  | c :: cs, i, 0, _, _, hbad => by
    rw [Nat.add_zero] at hbad
    simp [uploadChunks, hbad]
  | c :: cs, i, k + 1, hk, hprev, hbad => by
    have h0 := hprev 0 (Nat.succ_pos k)
    rw [Nat.add_zero] at h0
    have IH := uploadChunks_abort status cs (i + 1) k (by simpa using hk)
      (fun j hj => by
        have := hprev (j + 1) (by omega)
        have heq : i + (j + 1) = i + 1 + j := by omega
        rwa [heq] at this)
      (by
        have heq : i + (k + 1) = i + 1 + k := by omega
        rwa [heq] at hbad)
    have heq : i + (k + 1) = i + 1 + k := by omega
    simp [uploadChunks, h0, IH, List.range'_succ, heq]

/-- Claim C8: the append phase splits the buffer into fixed 1 MiB segments
whose concatenation is the original buffer — every segment is non-empty,
none exceeds 1 MiB, all but the last are exactly 1 MiB, and there are
ceil(len / 1 MiB) of them — uploads them sequentially under increasing
zero-based segment indices, and on the first response outside 2xx it
aborts with that status without sending any further segment. -/
theorem claim_C8_upload_append (image : List Nat) (status : Nat → Nat) :
    (appendChunks image).flatten = image ∧
    (appendChunks image).length =
      (image.length + maxChunkSizeInBytes - 1) / maxChunkSizeInBytes ∧
    (∀ c ∈ appendChunks image, 0 < c.length ∧ c.length ≤ maxChunkSizeInBytes) ∧
    (∀ c ∈ (appendChunks image).dropLast, c.length = maxChunkSizeInBytes) ∧
    ((∀ j, j < (appendChunks image).length → 200 ≤ status j ∧ status j < 300) →
      uploadImageAppend status image =
        ((List.range' 0 (appendChunks image).length).zip (appendChunks image), none)) ∧
    (∀ k, k < (appendChunks image).length →
      (∀ j, j < k → 200 ≤ status j ∧ status j < 300) →
      ¬ (200 ≤ status k ∧ status k < 300) →
      uploadImageAppend status image =
        ((List.range' 0 k).zip ((appendChunks image).take k), some (status k))) := by
  refine ⟨appendChunks_join image, appendChunks_length image, appendChunks_size image,
    appendChunks_full image, ?_, ?_⟩
  · intro h2xx
    rw [uploadImageAppend, uploadAppendFrom_eq]
    exact uploadChunks_success status (appendChunks image) 0
      (fun j hj => by simpa using h2xx j hj)
  · intro k hk hprev hbad
    rw [uploadImageAppend, uploadAppendFrom_eq]
    have := uploadChunks_abort status (appendChunks image) 0 k hk
      (fun j hj => by simpa using hprev j hj)
      (by simpa using hbad)
    simpa using this

/-- Witness for C8: a two-byte buffer forms a single segment; with 2xx
responses it is uploaded under segment index 0, and with a 500 response
the upload aborts at once having sent nothing. -/
theorem claim_C8_witness :
    appendChunks [9, 9] = [[9, 9]] ∧
    uploadImageAppend (fun _ => 200) [9, 9] = ([(0, [9, 9])], none) ∧
    uploadImageAppend (fun _ => 500) [9, 9] = ([], some 500) := by
  have hch : appendChunks [9, 9] = [[9, 9]] := by
    rw [appendChunks]
    have h1 : List.take maxChunkSizeInBytes [9, 9] = [9, 9] :=
      List.take_of_length_le (by simp [maxChunkSizeInBytes])
    have h2 : List.drop maxChunkSizeInBytes [9, 9] = [] :=
      List.drop_eq_nil_of_le (by simp [maxChunkSizeInBytes])
    simp [h1, h2, appendChunks_nil]
  refine ⟨hch, ?_, ?_⟩
  · have h := (claim_C8_upload_append [9, 9] (fun _ => 200)).2.2.2.2.1
      (fun j hj => by omega)
    rw [hch] at h
    simpa using h
  · have h := (claim_C8_upload_append [9, 9] (fun _ => 500)).2.2.2.2.2 0
      (by rw [hch]; simp) (fun j hj => by omega) (by omega)
    rw [hch] at h
    simpa using h

end Bromato
